import Mathlib

/-!
Shallow embedding of the particle-morph repository.

The sources embedded here:
  - src/unnamed/part_001 (particle utilities, edge-detecting variant):
    generateSpherePositions, sampleTextPositions with edge classification,
    Fisher-Yates shuffle, round-robin assignment.
  - src/components/ParticleScene.tsx: the per-frame useFrame callback
    (morph progress relaxation, color lerp, rotation accumulation,
    position interpolation with noise, buffer-length safety check).
  - src/unnamed/part_000 (App component): handleMorph.
  - The IlluminationModel of spec section 4.4, which has no code in src/,
    is modelled from the spec (clearly marked below).

Conventions: JavaScript numbers are embedded as exact rationals where the
source uses only field operations and comparisons, and as real numbers
where the source uses trigonometry or square roots.  Math.random() is
embedded as an injected stream of values (a function from call index),
and the browser canvas as an abstract Bitmap parameter.
-/

namespace ParticleToText

/-- A classified glyph sample pixel, mirroring `interface Point { x; y; isEdge }`
in src/unnamed/part_001. -/
structure GPoint where
  x : ℕ
  y : ℕ
  isEdge : Bool
deriving DecidableEq, Inhabited

/-- Abstract result of the off-screen canvas rasterization in
sampleTextPositions (canvas sizing, fillRect, fillText, getImageData are
browser side effects outside the repository code): a pixel buffer of the
produced width and height.  `data` is the flat RGBA byte array returned by
getImageData, as a function from byte index. -/
structure Bitmap where
  width : ℕ
  height : ℕ
  data : ℕ → ℕ

/-- Threshold for anti-aliased pixels, `const threshold = 30` in part_001. -/
def threshold : ℕ := 30

/-- Models `const getAlpha = (x, y) => data[((y * width) + x) * 4]`. -/
def getAlpha (b : Bitmap) (x y : ℕ) : ℕ := b.data (((y * b.width) + x) * 4)

/-- Inner x loop of the pixel scan in part_001:
`for (let x = 2; x < width - 2; x += step)` with step 2, pushing a point
with its edge classification whenever the channel exceeds the threshold. -/
def scanRow (b : Bitmap) (y : ℕ) (x : ℕ) : List GPoint :=
  if h : x < b.width - 2 then
    (if getAlpha b x y > threshold then
      let nT := getAlpha b x (y - 2)
      let nB := getAlpha b x (y + 2)
      let nL := getAlpha b (x - 2) y
      let nR := getAlpha b (x + 2) y
      let isEdge := nT < threshold || nB < threshold || nL < threshold || nR < threshold
      [⟨x, y, isEdge⟩]
    else []) ++ scanRow b y (x + 2)
  else []
termination_by b.width - 2 - x
decreasing_by omega

/-- Outer y loop of the pixel scan in part_001:
`for (let y = 2; y < height - 2; y += step)` with step 2. -/
def scanAll (b : Bitmap) (y : ℕ) : List GPoint :=
  if _h : y < b.height - 2 then
    scanRow b y 2 ++ scanAll b (y + 2)
  else []
termination_by b.height - 2 - y
decreasing_by omega

/-- Models the destructuring swap `[arr[i], arr[j]] = [arr[j], arr[i]]`
inside the shuffle of part_001.  In every call site both indices are in
bounds; out of bounds the list is returned unchanged. -/
def swapL {α : Type} (l : List α) (i j : ℕ) : List α :=
  match l[i]?, l[j]? with
  | some a, some b => (l.set i b).set j a
  | _, _ => l

/-- Loop of the Fisher-Yates shuffle in part_001, descending index:
`for (let i = arr.length - 1; i > 0; i--) { j = floor(random()*(i+1)); swap }`.
The draw `Math.floor(Math.random() * (i + 1))`, a uniform integer in
[0, i], is embedded as `rand i % (i + 1)` for an injected stream `rand`. -/
def shuffleAux {α : Type} (rand : ℕ → ℕ) : ℕ → List α → List α
  | 0, arr => arr
  | i + 1, arr => shuffleAux rand i (swapL arr (i + 1) (rand (i + 1) % (i + 2)))

/-- Models `const shuffle = (arr) => { for i from length-1 downto 1 ... }`
in part_001. -/
def shuffle {α : Type} (rand : ℕ → ℕ) (arr : List α) : List α :=
  shuffleAux rand (arr.length - 1) arr

/-- Models JavaScript String.prototype.trim: drop whitespace from both ends. -/
def jsTrim (s : List Char) : List Char :=
  ((s.dropWhile Char.isWhitespace).reverse.dropWhile Char.isWhitespace).reverse

/-- Flat triple buffer: the writes `positions[i*3] = A; positions[i*3+1] = B;
positions[i*3+2] = C` for i in [0, n), each slot written exactly once, laid
out as the flat length 3n array they produce. -/
def flat3 {α : Type} (n : ℕ) (A B C : ℕ → α) : List α :=
  (List.range n).flatMap (fun i => [A i, B i, C i])

/-- Models sampleTextPositions of src/unnamed/part_001 (the edge-detecting
variant).  `text` is the input string, `ctx` the abstract canvas 2d context
outcome (`none` models getContext returning null, `some b` the rasterized
bitmap, its width and height already including the measured text extents
plus padding as computed by the browser side effects), `re` and `ri` the
random draws consumed by the two shuffle calls, and `jrand` the
Math.random() stream consumed by the per-particle jitter (two draws per
particle, in order). -/
def sampleTextPositions (text : List Char) (particleCount : ℕ)
    (ctx : Option Bitmap) (re ri : ℕ → ℕ) (jrand : ℕ → ℚ) : List ℚ :=
  if text = [] ∨ (jsTrim text).length = 0 then List.replicate (particleCount * 3) 0
  else
    match ctx with
    | none => List.replicate (particleCount * 3) 0
    | some b =>
      let points := scanAll b 2
      if points = [] then List.replicate (particleCount * 3) 0
      else
        let edges := points.filter (fun p => p.isEdge)
        let interior := points.filter (fun p => !p.isEdge)
        let sortedPoints := shuffle re edges ++ shuffle ri interior
        let targetWorldWidth : ℚ := 18
        let scale : ℚ := targetWorldWidth / (b.width : ℚ)
        let offsetX : ℚ := (b.width : ℚ) / 2
        let offsetY : ℚ := (b.height : ℚ) / 2
        flat3 particleCount
          (fun i =>
            let pt := sortedPoints.getD (i % sortedPoints.length) default
            let jitterRange : ℚ := if pt.isEdge then 0.25 else 2.5
            let jx := (jrand (2 * i) - 0.5) * jitterRange;
            ((pt.x : ℚ) - offsetX + jx) * scale)
          (fun i =>
            let pt := sortedPoints.getD (i % sortedPoints.length) default
            let jitterRange : ℚ := if pt.isEdge then 0.25 else 2.5
            let jy := (jrand (2 * i + 1) - 0.5) * jitterRange;
            -((pt.y : ℚ) - offsetY + jy) * scale)
          (fun _ => 0)

/-- State of the App component of src/unnamed/part_000 relevant to
handleMorph: the inputValue, activeText and isMorphing useState cells. -/
structure AppState where
  inputValue : List Char
  activeText : List Char
  isMorphing : Bool
deriving DecidableEq

/-- Models handleMorph of src/unnamed/part_000 lines 52 to 58: if the
trimmed input is nonempty, set the active text to the raw input and start
morphing; otherwise do nothing. -/
def handleMorph (s : AppState) : AppState :=
  if 0 < (jsTrim s.inputValue).length then
    { s with activeText := s.inputValue, isMorphing := true }
  else s

/-- Models line 84 and line 245 of src/components/ParticleScene.tsx:
`const targetProgress = isMorphing && text.length > 0 ? 1 : 0`. -/
def targetProgressOf (isMorphing : Bool) (text : List Char) : ℝ :=
  if isMorphing ∧ 0 < text.length then 1 else 0

/-- Constant SPHERE_RADIUS = 3.5 of ParticleScene.tsx. -/
noncomputable def SPHERE_RADIUS : ℝ := 3.5

/-- Constant MORPH_SPEED = 2.5 of ParticleScene.tsx. -/
noncomputable def MORPH_SPEED : ℝ := 2.5

/-- The golden angle `const phi = Math.PI * (3 - Math.sqrt(5))` of
generateSpherePositions. -/
noncomputable def goldenAngle : ℝ := Real.pi * (3 - Real.sqrt 5)

/-- Models generateSpherePositions of src/utils/particleUtils.ts lines 7
to 25 (identical in src/unnamed/part_001): the Fibonacci sphere, written
as the flat array positions with positions[i*3] = x*radius,
positions[i*3+1] = y*radius, positions[i*3+2] = z*radius.  Valid for
count at least 2, where the divisor count - 1 is nonzero; the count = 1
behaviour of the JavaScript division is captured separately by sphereY
below. -/
noncomputable def generateSpherePositions (count : ℕ) (radius : ℝ) : List ℝ :=
  flat3 count
    (fun i =>
      let y : ℝ := 1 - ((i : ℝ) / ((count : ℝ) - 1)) * 2
      let radiusAtY := Real.sqrt (1 - y * y)
      let theta := goldenAngle * (i : ℝ);
      (Real.cos theta * radiusAtY) * radius)
    (fun i =>
      let y : ℝ := 1 - ((i : ℝ) / ((count : ℝ) - 1)) * 2;
      y * radius)
    (fun i =>
      let y : ℝ := 1 - ((i : ℝ) / ((count : ℝ) - 1)) * 2
      let radiusAtY := Real.sqrt (1 - y * y)
      let theta := goldenAngle * (i : ℝ);
      (Real.sin theta * radiusAtY) * radius)

/-- JavaScript floating point division for the operands arising at line 12
of particleUtils.ts: `none` models a non-finite result.  The only zero
divisor reachable in generateSpherePositions is count - 1 = 0 at
count = 1, where the numerator i is also 0, and 0/0 evaluates to NaN in
JavaScript. -/
noncomputable def jsDiv (a b : ℝ) : Option ℝ :=
  if b = 0 then none else some (a / b)

/-- The y coordinate computation `const y = 1 - (i / (count - 1)) * 2` of
generateSpherePositions under JavaScript division semantics: `none` is a
NaN result. -/
noncomputable def sphereY (count i : ℕ) : Option ℝ :=
  (jsDiv (i : ℝ) ((count : ℝ) - 1)).map (fun q => 1 - q * 2)

/-- The easing `const ease = t * t * (3 - 2 * t)` (smoothstep) of
ParticleScene.tsx line 98 (and 256). -/
noncomputable def smoothstep (t : ℝ) : ℝ := t * t * (3 - 2 * t)

/-- Per-frame inputs read by the useFrame callback of ParticleScene.tsx:
the frame delta, the clock, the normalized pointer, the component props,
and the Math.random() stream consumed by the per-particle noise (three
draws per particle, in order). -/
structure FrameInput where
  delta : ℝ
  elapsedTime : ℝ
  pointerX : ℝ
  pointerY : ℝ
  isMorphing : Bool
  text : List Char
  isPaused : Bool
  targetColorR : ℝ
  targetColorG : ℝ
  targetColorB : ℝ
  rand : ℕ → ℝ

/-- Mutable engine state owned by ParticleScene: the material color, the
morphProgress ref, the autoRotationY ref, the rotation applied to the
points object, and the position buffer of the geometry attribute. -/
structure EngineState where
  colorR : ℝ
  colorG : ℝ
  colorB : ℝ
  morphProgress : ℝ
  autoRotationY : ℝ
  rotationX : ℝ
  rotationY : ℝ
  positions : List ℝ

/-- One channel of THREE.Color.lerp: `this.r += (color.r - this.r) * alpha`. -/
noncomputable def lerp (current target alpha : ℝ) : ℝ :=
  current + (target - current) * alpha

/-- The morph progress update of ParticleScene.tsx lines 87 to 92 (and
248 to 253): `diff = targetProgress - progress; if (Math.abs(diff) >
0.001) progress += diff * Math.min(delta * MORPH_SPEED, 1); else
progress = targetProgress`. -/
noncomputable def tickProgress (progress targetProgress delta : ℝ) : ℝ :=
  let diff := targetProgress - progress
  if |diff| > 0.001 then progress + diff * min (delta * MORPH_SPEED) 1
  else targetProgress

/-- Models the useFrame callback of ParticleScene.tsx (lines 74 to 148;
the second iteration at lines 236 to 302 is identical in every embedded
step).  The early return on isPaused skips everything; the safety check
`positions.length !== particleCount * 3` at line 122 (line 275 in the
second iteration) skips only the per-particle position loop, after the
color, progress and rotation updates have already been applied.  In the
non-skipped case the loop writes every slot of the 3 * particleCount
position buffer exactly once, embedded as the flat3 buffer it produces. -/
noncomputable def frameUpdate (particleCount : ℕ)
    (spherePositions textPositions : ℕ → ℝ)
    (s : EngineState) (inp : FrameInput) : EngineState :=
  if inp.isPaused then s else
  let colorR := lerp s.colorR inp.targetColorR (inp.delta * 3)
  let colorG := lerp s.colorG inp.targetColorG (inp.delta * 3)
  let colorB := lerp s.colorB inp.targetColorB (inp.delta * 3)
  let targetProgress := targetProgressOf inp.isMorphing inp.text
  let progress := tickProgress s.morphProgress targetProgress inp.delta
  let t := progress
  let ease := smoothstep t
  let sphereRotationSpeed := 0.1 * (1 - ease * 0.8)
  let autoRotationY := s.autoRotationY + sphereRotationSpeed * inp.delta
  let parallaxX := inp.pointerY * 0.3
  let parallaxY := inp.pointerX * 0.3
  let rotationY := autoRotationY + parallaxY * 0.5
  let wobble := Real.sin (inp.elapsedTime * 0.5) * 0.1 * (1 - ease)
  let rotationX := wobble - parallaxX * 0.5
  if s.positions.length ≠ particleCount * 3 then
    { colorR := colorR, colorG := colorG, colorB := colorB,
      morphProgress := progress, autoRotationY := autoRotationY,
      rotationX := rotationX, rotationY := rotationY,
      positions := s.positions }
  else
    let wobbleIntensity := Real.sin (t * Real.pi) * 2
    let positions := flat3 particleCount
      (fun i =>
        let noiseX := (inp.rand (3 * i) - 0.5) * wobbleIntensity * 0.2;
        spherePositions (i * 3) * (1 - ease) + textPositions (i * 3) * ease + noiseX)
      (fun i =>
        let noiseY := (inp.rand (3 * i + 1) - 0.5) * wobbleIntensity * 0.2;
        spherePositions (i * 3 + 1) * (1 - ease) + textPositions (i * 3 + 1) * ease + noiseY)
      (fun i =>
        let noiseZ := (inp.rand (3 * i + 2) - 0.5) * wobbleIntensity * 0.5;
        spherePositions (i * 3 + 2) * (1 - ease) + textPositions (i * 3 + 2) * ease + noiseZ)
    { colorR := colorR, colorG := colorG, colorB := colorB,
      morphProgress := progress, autoRotationY := autoRotationY,
      rotationX := rotationX, rotationY := rotationY,
      positions := positions }

/-- Modelled from the spec: the IlluminationModel of spec section 4.4 has
no implementation under src/ (neither useFrame iteration writes
per-particle colors); its intensity formula is taken from the spec words
`intensity = ambient(0.5) + falloff(25.0) / (distanceSquared +
softening(10.0))`. -/
def intensity (distanceSquared : ℚ) : ℚ :=
  0.5 + 25.0 / (distanceSquared + 10.0)

/-- Modelled from the spec: squared Euclidean distance from a particle
position to the pointer-projected light point. -/
def distSq (p q : ℚ × ℚ × ℚ) : ℚ :=
  (p.1 - q.1) ^ 2 + (p.2.1 - q.2.1) ^ 2 + (p.2.2 - q.2.2) ^ 2

/-- Modelled from the spec: the same intensity is written to all three
color channels of the particle. -/
def illuminate (p light : ℚ × ℚ × ℚ) : ℚ × ℚ × ℚ :=
  let v := intensity (distSq p light)
  (v, v, v)

/-! Helper lemmas about the flat triple buffers. -/

theorem flatMap3_getD {α : Type} (A B C : ℕ → α) (d : α) :
    ∀ (l : List ℕ) (i : ℕ), i < l.length →
      (l.flatMap (fun j => [A j, B j, C j])).getD (3 * i) d = A (l.getD i 0) ∧
      (l.flatMap (fun j => [A j, B j, C j])).getD (3 * i + 1) d = B (l.getD i 0) ∧
      (l.flatMap (fun j => [A j, B j, C j])).getD (3 * i + 2) d = C (l.getD i 0)
  | [], i, h => by simp at h
  | a :: l, 0, _ => by simp [List.flatMap_cons]
  | a :: l, i + 1, h => by
      have ih := flatMap3_getD A B C d l i (by simpa using h)
      refine ⟨?_, ?_, ?_⟩
      · rw [List.flatMap_cons, show 3 * (i + 1) = 3 * i + 1 + 1 + 1 from by omega]
        simp only [List.cons_append, List.nil_append, List.getD_cons_succ]
        exact ih.1
      · rw [List.flatMap_cons, show 3 * (i + 1) + 1 = 3 * i + 1 + 1 + 1 + 1 from by omega]
        simp only [List.cons_append, List.nil_append, List.getD_cons_succ]
        exact ih.2.1
      · rw [List.flatMap_cons, show 3 * (i + 1) + 2 = 3 * i + 2 + 1 + 1 + 1 from by omega]
        simp only [List.cons_append, List.nil_append, List.getD_cons_succ]
        exact ih.2.2

theorem flat3_length {α : Type} (n : ℕ) (A B C : ℕ → α) :
    (flat3 n A B C).length = 3 * n := by
  induction n with
  | zero => simp [flat3]
  | succ m ih =>
      simp only [flat3, List.range_succ, List.flatMap_append, List.length_append] at ih ⊢
      simp [ih]
      omega

theorem flat3_getD {α : Type} (n : ℕ) (A B C : ℕ → α) (d : α) {i : ℕ}
    (h : i < n) :
    (flat3 n A B C).getD (3 * i) d = A i ∧
    (flat3 n A B C).getD (3 * i + 1) d = B i ∧
    (flat3 n A B C).getD (3 * i + 2) d = C i := by
  have := flatMap3_getD A B C d (List.range n) i (by simpa using h)
  simpa [flat3, List.getD_eq_getElem, h] using this

/-! Helper lemmas: the Fisher-Yates shuffle is a permutation. -/

theorem count_set_add {α : Type} [DecidableEq α] (x b : α) :
    ∀ (l : List α) (i : ℕ), i < l.length →
      (l.set i b).count x + (if l.getD i b = x then 1 else 0)
        = l.count x + (if b = x then 1 else 0)
  | a :: l, 0, _ => by
      simp only [List.set_cons_zero, List.getD_cons_zero, List.count_cons, beq_iff_eq]
      split_ifs <;> omega
  | a :: l, i + 1, h => by
      have ih := count_set_add x b l i (by simpa using h)
      simp only [List.set_cons_succ, List.getD_cons_succ, List.count_cons, beq_iff_eq] at ih ⊢
      split_ifs at ih ⊢ <;> omega

theorem swapL_perm {α : Type} [DecidableEq α] (l : List α) (i j : ℕ) :
    (swapL l i j).Perm l := by
  cases h1 : l[i]? with
  | none =>
      have hid : swapL l i j = l := by
        unfold swapL
        rw [h1]
      rw [hid]
  | some a =>
    cases h2 : l[j]? with
    | none =>
      have hid : swapL l i j = l := by
        unfold swapL
        rw [h1, h2]
      rw [hid]
    | some b =>
      have hswap : swapL l i j = (l.set i b).set j a := by
        unfold swapL
        rw [h1, h2]
      rw [hswap]
      have hi : i < l.length := by
        have := List.getElem?_eq_some_iff.mp h1
        exact this.1
      have hj : j < l.length := by
        have := List.getElem?_eq_some_iff.mp h2
        exact this.1
      have hia : l[i] = a := (List.getElem?_eq_some_iff.mp h1).2
      have hjb : l[j] = b := (List.getElem?_eq_some_iff.mp h2).2
      rw [List.perm_iff_count]
      intro x
      have hlen : j < (l.set i b).length := by simpa using hj
      have E1 := count_set_add x a (l.set i b) j hlen
      have E2 := count_set_add x b l i hi
      have hD1 : (l.set i b).getD j a = b := by
        rw [List.getD_eq_getElem _ _ hlen, List.getElem_set]
        by_cases hij : i = j
        · simp [hij]
        · simp [hij, hjb]
      have hD2 : l.getD i b = a := by
        rw [List.getD_eq_getElem _ _ hi, hia]
      rw [hD1] at E1
      rw [hD2] at E2
      split_ifs at E1 E2 <;> omega

theorem shuffleAux_perm {α : Type} [DecidableEq α] (rand : ℕ → ℕ) :
    ∀ (n : ℕ) (arr : List α), (shuffleAux rand n arr).Perm arr
  | 0, arr => List.Perm.refl arr
  | n + 1, arr => by
      have ih := shuffleAux_perm rand n (swapL arr (n + 1) (rand (n + 1) % (n + 2)))
      exact ih.trans (swapL_perm arr (n + 1) (rand (n + 1) % (n + 2)))

theorem shuffle_perm {α : Type} [DecidableEq α] (rand : ℕ → ℕ) (arr : List α) :
    (shuffle rand arr).Perm arr :=
  shuffleAux_perm rand (arr.length - 1) arr

/-! Helper lemmas about trimming. -/

theorem jsTrim_eq_nil_of_whitespace {s : List Char}
    (h : ∀ c ∈ s, c.isWhitespace) : jsTrim s = [] := by
  unfold jsTrim
  have h1 : s.dropWhile Char.isWhitespace = [] := by
    rw [List.dropWhile_eq_nil_iff]
    exact h
  rw [h1]
  simp

/-! Helper lemmas about the morph progress step. -/

theorem tickProgress_eq (p tgt d : ℝ) :
    tickProgress p tgt d =
      if |tgt - p| > 0.001 then p + (tgt - p) * min (d * MORPH_SPEED) 1
      else tgt := rfl

theorem tickProgress_fixed (p d : ℝ) : tickProgress p p d = p := by
  rw [tickProgress_eq]
  norm_num

theorem tickProgress_bounds (p tgt d : ℝ) (h0 : 0 ≤ p) (h1 : p ≤ 1)
    (ht : tgt = 0 ∨ tgt = 1) (hd : 0 ≤ d) :
    0 ≤ tickProgress p tgt d ∧ tickProgress p tgt d ≤ 1 := by
  rw [tickProgress_eq]
  have hf0 : 0 ≤ min (d * MORPH_SPEED) 1 := by
    refine le_min ?_ zero_le_one
    have : (0 : ℝ) ≤ MORPH_SPEED := by norm_num [MORPH_SPEED]
    exact mul_nonneg hd this
  have hf1 : min (d * MORPH_SPEED) 1 ≤ 1 := min_le_right _ _
  set f := min (d * MORPH_SPEED) 1 with hf
  split_ifs with hcase
  · rcases ht with rfl | rfl
    · constructor <;> nlinarith
    · constructor <;> nlinarith
  · rcases ht with rfl | rfl
    · exact ⟨le_refl 0, zero_le_one⟩
    · exact ⟨zero_le_one, le_refl 1⟩

theorem tickProgress_no_overshoot (p tgt d : ℝ) (hd : 0 ≤ d) :
    |tgt - tickProgress p tgt d| ≤ |tgt - p| := by
  rw [tickProgress_eq]
  have hf0 : 0 ≤ min (d * MORPH_SPEED) 1 := by
    refine le_min ?_ zero_le_one
    have : (0 : ℝ) ≤ MORPH_SPEED := by norm_num [MORPH_SPEED]
    exact mul_nonneg hd this
  have hf1 : min (d * MORPH_SPEED) 1 ≤ 1 := min_le_right _ _
  set f := min (d * MORPH_SPEED) 1 with hf
  split_ifs with hcase
  · have : tgt - (p + (tgt - p) * f) = (tgt - p) * (1 - f) := by ring
    rw [this, abs_mul]
    have h1f : |1 - f| = 1 - f := abs_of_nonneg (by linarith)
    rw [h1f]
    nlinarith [abs_nonneg (tgt - p)]
  · simp [abs_nonneg]

/-- Repeated ticking from progress 0 with targetProgress 1 and a fixed
deltaTime, as in the testable property of the spec. -/
noncomputable def progressIter (d : ℝ) (n : ℕ) : ℝ :=
  (fun p => tickProgress p 1 d)^[n] 0

theorem progressIter_succ (d : ℝ) (n : ℕ) :
    progressIter d (n + 1) = tickProgress (progressIter d n) 1 d := by
  unfold progressIter
  rw [Function.iterate_succ_apply']

theorem progressIter_dichotomy (d : ℝ) :
    ∀ n : ℕ, progressIter d n = 1 ∨
      1 - progressIter d n = (1 - min (d * MORPH_SPEED) 1) ^ n := by
  intro n
  induction n with
  | zero => right; simp [progressIter]
  | succ m ih =>
      rcases ih with h | h
      · left
        rw [progressIter_succ, h, tickProgress_fixed]
      · by_cases hc : |1 - progressIter d m| > 0.001
        · right
          rw [progressIter_succ, tickProgress_eq, if_pos hc, pow_succ, ← h]
          ring
        · left
          rw [progressIter_succ, tickProgress_eq, if_neg hc]

theorem progressIter_stays_one (d : ℝ) {k : ℕ} (hk : progressIter d k = 1) :
    ∀ m : ℕ, progressIter d (k + m) = 1 := by
  intro m
  induction m with
  | zero => simpa using hk
  | succ m ih =>
      rw [show k + (m + 1) = (k + m) + 1 from rfl, progressIter_succ, ih,
        tickProgress_fixed]

theorem progressIter_converges (d : ℝ) (hd : 0 < d) :
    ∃ N : ℕ, |1 - progressIter d N| ≤ 0.001 ∧
      ∀ n : ℕ, N < n → progressIter d n = 1 := by
  set f := min (d * MORPH_SPEED) 1 with hf
  have hfpos : 0 < f := by
    refine lt_min ?_ one_pos
    have : (0 : ℝ) < MORPH_SPEED := by norm_num [MORPH_SPEED]
    exact mul_pos hd this
  have hfle : f ≤ 1 := min_le_right _ _
  obtain ⟨N, hN⟩ := exists_pow_lt_of_lt_one
    (show (0 : ℝ) < 0.001 by norm_num) (show 1 - f < 1 by linarith)
  have hNclose : |1 - progressIter d N| ≤ 0.001 := by
    rcases progressIter_dichotomy d N with h | h
    · rw [h]
      norm_num
    · rw [h, abs_of_nonneg (pow_nonneg (by linarith) N)]
      exact le_of_lt hN
  have hsnap : progressIter d (N + 1) = 1 := by
    rw [progressIter_succ, tickProgress_eq, if_neg (by push_neg; exact hNclose)]
  refine ⟨N, hNclose, ?_⟩
  intro n hn
  have : n = (N + 1) + (n - (N + 1)) := by omega
  rw [this]
  exact progressIter_stays_one d hsnap (n - (N + 1))

/-- C1: the morph progress scalar stays within [0,1] under any
interleaving of frame ticks with targets in {0,1} and nonnegative
deltaTimes, never overshoots the current target (each step shrinks the
remaining difference), and from progress 0 with targetProgress 1 and any
fixed positive deltaTime it reaches within 0.001 of 1 in finitely many
steps, after which it snaps to exactly 1 and remains there. -/
theorem morphProgress_clamped_and_converges :
    (∀ (l : List (ℝ × ℝ)) (p : ℝ), 0 ≤ p → p ≤ 1 →
      (∀ pr ∈ l, (pr.1 = 0 ∨ pr.1 = 1) ∧ 0 ≤ pr.2) →
      0 ≤ l.foldl (fun q pr => tickProgress q pr.1 pr.2) p ∧
        l.foldl (fun q pr => tickProgress q pr.1 pr.2) p ≤ 1) ∧
    (∀ p tgt d : ℝ, 0 ≤ d → |tgt - tickProgress p tgt d| ≤ |tgt - p|) ∧
    (∀ d : ℝ, 0 < d → ∃ N : ℕ, |1 - progressIter d N| ≤ 0.001 ∧
      ∀ n : ℕ, N < n → progressIter d n = 1) := by
  refine ⟨?_, ?_, progressIter_converges⟩
  · intro l
    induction l with
    | nil => intro p h0 h1 _; exact ⟨h0, h1⟩
    | cons pr l ih =>
        intro p h0 h1 hl
        have hpr := hl pr (List.mem_cons_self pr l)
        have hstep := tickProgress_bounds p pr.1 pr.2 h0 h1 hpr.1 hpr.2
        simp only [List.foldl_cons]
        exact ih (tickProgress p pr.1 pr.2) hstep.1 hstep.2
          (fun q hq => hl q (List.mem_cons_of_mem pr hq))
  · intro p tgt d hd
    exact tickProgress_no_overshoot p tgt d hd

/-- Witness for C1 at concrete inputs: the tick list [(1, 1/10), (0, 2)]
from progress 0, the single step at p = 1/2 toward target 1 with
delta = 1/5, and convergence at fixed deltaTime 1/10. -/
theorem morphProgress_clamped_and_converges_witness :
    (0 ≤ [((1 : ℝ), (1 : ℝ) / 10), (0, 2)].foldl
        (fun q pr => tickProgress q pr.1 pr.2) 0 ∧
      [((1 : ℝ), (1 : ℝ) / 10), (0, 2)].foldl
        (fun q pr => tickProgress q pr.1 pr.2) 0 ≤ 1) ∧
    |(1 : ℝ) - tickProgress (1 / 2) 1 (1 / 5)| ≤ |(1 : ℝ) - 1 / 2| ∧
    (∃ N : ℕ, |1 - progressIter (1 / 10) N| ≤ 0.001 ∧
      ∀ n : ℕ, N < n → progressIter (1 / 10) n = 1) := by
  refine ⟨?_, ?_, ?_⟩
  · exact morphProgress_clamped_and_converges.1 [(1, 1 / 10), (0, 2)] 0
      le_rfl zero_le_one (by norm_num)
  · exact morphProgress_clamped_and_converges.2.1 (1 / 2) 1 (1 / 5) (by norm_num)
  · exact morphProgress_clamped_and_converges.2.2 (1 / 10) (by norm_num)

/-- C8: once the morph progress has snapped to exactly 0 or exactly 1,
every further tick with the same targetProgress leaves it unchanged: the
terminal state is a fixed point of the per-frame progress update. -/
theorem terminal_progress_fixed_point (p d : ℝ) (h : p = 0 ∨ p = 1) :
    tickProgress p p d = p := by
  rcases h with rfl | rfl <;> exact tickProgress_fixed _ d

/-- Witness for C8 at progress 1 and deltaTime 3/10. -/
theorem terminal_progress_fixed_point_witness :
    tickProgress 1 1 (3 / 10) = 1 :=
  terminal_progress_fixed_point 1 (3 / 10) (Or.inr rfl)

/-! Helper lemmas about the Fibonacci sphere. -/

theorem sphere_y_bounds (c : ℕ) (hc : 2 ≤ c) {i : ℕ} (hi : i < c) :
    -1 ≤ 1 - ((i : ℝ) / ((c : ℝ) - 1)) * 2 ∧
      1 - ((i : ℝ) / ((c : ℝ) - 1)) * 2 ≤ 1 := by
  have hc2 : (2 : ℝ) ≤ (c : ℝ) := by exact_mod_cast hc
  have hden : (0 : ℝ) < (c : ℝ) - 1 := by linarith
  have hi' : (i : ℝ) ≤ (c : ℝ) - 1 := by
    have : (i : ℝ) ≤ (c : ℝ) - 1 ↔ (i : ℝ) + 1 ≤ (c : ℝ) := by constructor <;> intro <;> linarith
    rw [this]
    exact_mod_cast hi
  have h0 : (0 : ℝ) ≤ (i : ℝ) / ((c : ℝ) - 1) := div_nonneg (Nat.cast_nonneg i) hden.le
  have h1 : (i : ℝ) / ((c : ℝ) - 1) ≤ 1 := (div_le_one hden).mpr hi'
  constructor <;> linarith

theorem spherePoint_norm (c : ℕ) (R : ℝ) (hc : 2 ≤ c) (hR : 0 < R)
    {i : ℕ} (hi : i < c) :
    Real.sqrt
      ((Real.cos (goldenAngle * (i : ℝ)) *
          Real.sqrt (1 - (1 - ((i : ℝ) / ((c : ℝ) - 1)) * 2) *
            (1 - ((i : ℝ) / ((c : ℝ) - 1)) * 2)) * R) ^ 2 +
        ((1 - ((i : ℝ) / ((c : ℝ) - 1)) * 2) * R) ^ 2 +
        (Real.sin (goldenAngle * (i : ℝ)) *
          Real.sqrt (1 - (1 - ((i : ℝ) / ((c : ℝ) - 1)) * 2) *
            (1 - ((i : ℝ) / ((c : ℝ) - 1)) * 2)) * R) ^ 2) = R := by
  obtain ⟨hy2, hy1⟩ := sphere_y_bounds c hc hi
  set y : ℝ := 1 - ((i : ℝ) / ((c : ℝ) - 1)) * 2 with hy
  have h1y : 0 ≤ 1 - y * y := by nlinarith
  have hr2 : Real.sqrt (1 - y * y) ^ 2 = 1 - y * y := Real.sq_sqrt h1y
  have hpyth := Real.sin_sq_add_cos_sq (goldenAngle * (i : ℝ))
  have key :
      (Real.cos (goldenAngle * (i : ℝ)) * Real.sqrt (1 - y * y) * R) ^ 2 +
        (y * R) ^ 2 +
        (Real.sin (goldenAngle * (i : ℝ)) * Real.sqrt (1 - y * y) * R) ^ 2
      = R ^ 2 := by
    have expand :
        (Real.cos (goldenAngle * (i : ℝ)) * Real.sqrt (1 - y * y) * R) ^ 2 +
          (y * R) ^ 2 +
          (Real.sin (goldenAngle * (i : ℝ)) * Real.sqrt (1 - y * y) * R) ^ 2
        = (Real.sin (goldenAngle * (i : ℝ)) ^ 2 +
            Real.cos (goldenAngle * (i : ℝ)) ^ 2) *
            (Real.sqrt (1 - y * y) ^ 2 * R ^ 2) + y ^ 2 * R ^ 2 := by
      ring
    rw [expand, hpyth, one_mul, hr2]
    ring
  rw [key]
  exact Real.sqrt_sq hR.le

theorem sphere_y_mono (c : ℕ) (R : ℝ) (hc : 2 ≤ c) (hR : 0 < R)
    {i j : ℕ} (hij : i ≤ j) :
    (1 - ((j : ℝ) / ((c : ℝ) - 1)) * 2) * R ≤
      (1 - ((i : ℝ) / ((c : ℝ) - 1)) * 2) * R := by
  have hc2 : (2 : ℝ) ≤ (c : ℝ) := by exact_mod_cast hc
  have hden : (0 : ℝ) < (c : ℝ) - 1 := by linarith
  have hij' : (i : ℝ) ≤ (j : ℝ) := by exact_mod_cast hij
  have hdiv : (i : ℝ) / ((c : ℝ) - 1) ≤ (j : ℝ) / ((c : ℝ) - 1) := by gcongr
  nlinarith [hdiv, hR]

/-- C2: for count at least 2 and positive radius, generateSpherePositions
returns exactly count points (a flat array of length 3 count), every
point has Euclidean norm equal to radius, and the y coordinates at
slots 3i+1 are monotonically non-increasing in i. -/
theorem generateSpherePositions_spec (count : ℕ) (radius : ℝ)
    (hc : 2 ≤ count) (hr : 0 < radius) :
    (generateSpherePositions count radius).length = 3 * count ∧
    (∀ i, i < count →
      Real.sqrt ((generateSpherePositions count radius).getD (3 * i) 0 ^ 2 +
        (generateSpherePositions count radius).getD (3 * i + 1) 0 ^ 2 +
        (generateSpherePositions count radius).getD (3 * i + 2) 0 ^ 2) = radius) ∧
    (∀ i j, i ≤ j → j < count →
      (generateSpherePositions count radius).getD (3 * j + 1) 0 ≤
        (generateSpherePositions count radius).getD (3 * i + 1) 0) := by
  unfold generateSpherePositions
  refine ⟨flat3_length count _ _ _, ?_, ?_⟩
  · intro i hi
    rw [(flat3_getD count _ _ _ (0 : ℝ) hi).1,
      (flat3_getD count _ _ _ (0 : ℝ) hi).2.1,
      (flat3_getD count _ _ _ (0 : ℝ) hi).2.2]
    exact spherePoint_norm count radius hc hr hi
  · intro i j hij hj
    have hi : i < count := lt_of_le_of_lt hij hj
    rw [(flat3_getD count _ _ _ (0 : ℝ) hj).2.1,
      (flat3_getD count _ _ _ (0 : ℝ) hi).2.1]
    exact sphere_y_mono count radius hc hr hij

/-- Witness for C2 at count = 2, radius = 1. -/
theorem generateSpherePositions_spec_witness :
    (generateSpherePositions 2 1).length = 3 * 2 ∧
    (∀ i, i < 2 →
      Real.sqrt ((generateSpherePositions 2 1).getD (3 * i) 0 ^ 2 +
        (generateSpherePositions 2 1).getD (3 * i + 1) 0 ^ 2 +
        (generateSpherePositions 2 1).getD (3 * i + 2) 0 ^ 2) = 1) ∧
    (∀ i j, i ≤ j → j < 2 →
      (generateSpherePositions 2 1).getD (3 * j + 1) 0 ≤
        (generateSpherePositions 2 1).getD (3 * i + 1) 0) :=
  generateSpherePositions_spec 2 1 (by norm_num) (by norm_num)

/-- C6 counterexample: generateSpherePositions has no special case for
count = 1.  At count = 1 and i = 0 the code evaluates
`1 - (0 / (1 - 1)) * 2`, dividing 0 by 0, which is NaN in JavaScript and
propagates to the whole point; the y coordinate is not the claimed 0. -/
theorem sphereY_count_one_is_nan :
    sphereY 1 0 = none ∧ sphereY 1 0 ≠ some 0 := by
  have h : sphereY 1 0 = none := by
    unfold sphereY jsDiv
    norm_num
  exact ⟨h, by rw [h]; exact fun hc => Option.noConfusion hc⟩

/-- C6 amended: for every count at least 2 and every i < count the y
coordinate equals 1 - (i/(count-1))*2 and the division is well defined
(no NaN), and this value scaled by radius is what slot 3i+1 of the output
holds; but for count = 1 the code performs 0/0, yielding NaN rather than
the claimed 0, so the output does contain NaN at count = 1. -/
theorem sphereY_formula (count : ℕ) (radius : ℝ) (hc : 2 ≤ count)
    {i : ℕ} (hi : i < count) :
    sphereY count i = some (1 - ((i : ℝ) / ((count : ℝ) - 1)) * 2) ∧
    (generateSpherePositions count radius).getD (3 * i + 1) 0 =
      (1 - ((i : ℝ) / ((count : ℝ) - 1)) * 2) * radius := by
  have hc2 : (2 : ℝ) ≤ (count : ℝ) := by exact_mod_cast hc
  have hden : ((count : ℝ) - 1) ≠ 0 := by
    intro h
    linarith [h]
  constructor
  · unfold sphereY jsDiv
    rw [if_neg hden]
    rfl
  · unfold generateSpherePositions
    exact (flat3_getD count _ _ _ (0 : ℝ) hi).2.1

/-- Witness for the amended C6 at count = 2, radius = 1, i = 0. -/
theorem sphereY_formula_witness :
    sphereY 2 0 = some (1 - ((0 : ℝ) / ((2 : ℝ) - 1)) * 2) ∧
    (generateSpherePositions 2 1).getD (3 * 0 + 1) 0 =
      (1 - ((0 : ℝ) / ((2 : ℝ) - 1)) * 2) * 1 := by
  have h := @sphereY_formula 2 1 (by norm_num) 0 (by norm_num)
  exact_mod_cast h

/-- C3 (modelled from the spec, no illumination code exists under src/):
the intensity is ambient 0.5 plus falloff 25 over distanceSquared plus
softening 10; a particle coincident with the light point receives the
maximum 0.5 + 2.5 = 3, intensity strictly decreases as squared distance
increases, stays above and converges to 0.5, and the same intensity is
written to all three color channels. -/
theorem illumination_spec :
    (∀ p : ℚ × ℚ × ℚ, intensity (distSq p p) = 0.5 + 2.5) ∧
    intensity 0 = 3 ∧
    (∀ d2 : ℚ, 0 ≤ d2 → intensity d2 ≤ 3) ∧
    (∀ a b : ℚ, 0 ≤ a → a < b → intensity b < intensity a) ∧
    (∀ d2 : ℚ, 0 ≤ d2 → 0.5 < intensity d2) ∧
    (∀ ε : ℚ, 0 < ε → ∃ D : ℚ, ∀ d2 : ℚ, D ≤ d2 → intensity d2 < 0.5 + ε) ∧
    (∀ p light : ℚ × ℚ × ℚ,
      (illuminate p light).1 = intensity (distSq p light) ∧
      (illuminate p light).2.1 = intensity (distSq p light) ∧
      (illuminate p light).2.2 = intensity (distSq p light)) := by
  refine ⟨?_, ?_, ?_, ?_, ?_, ?_, ?_⟩
  · intro p
    have h : distSq p p = 0 := by
      unfold distSq
      ring
    rw [h]
    norm_num [intensity]
  · norm_num [intensity]
  · intro d2 h
    unfold intensity
    have h10 : (0 : ℚ) < d2 + 10 := by linarith
    have hdiv : (25 : ℚ) / (d2 + 10) ≤ 25 / 10 := by
      rw [div_le_div_iff₀ h10 (by norm_num)]
      linarith
    norm_num at hdiv ⊢
    linarith
  · intro a b ha hab
    unfold intensity
    have hA : (0 : ℚ) < a + 10 := by linarith
    have hB : (0 : ℚ) < b + 10 := by linarith
    have hdiv : (25 : ℚ) / (b + 10) < 25 / (a + 10) := by
      rw [div_lt_div_iff₀ hB hA]
      linarith
    linarith
  · intro d2 h
    unfold intensity
    have h10 : (0 : ℚ) < d2 + 10 := by linarith
    have := div_pos (show (0 : ℚ) < 25 by norm_num) h10
    linarith
  · intro ε hε
    refine ⟨25 / ε, ?_⟩
    intro d2 hD
    unfold intensity
    have hDpos : (0 : ℚ) < 25 / ε := div_pos (by norm_num) hε
    have h10 : (0 : ℚ) < d2 + 10 := by linarith
    have h1 : ε * (25 / ε) = 25 := by field_simp
    have h2 : ε * (25 / ε) ≤ ε * d2 := mul_le_mul_of_nonneg_left hD hε.le
    have h3 : (25 : ℚ) < ε * (d2 + 10) := by nlinarith
    have h4 : (25 : ℚ) / (d2 + 10) < ε := (div_lt_iff₀ h10).mpr (by linarith)
    linarith
  · intro p light
    exact ⟨rfl, rfl, rfl⟩

/-- Witness for C3: the coincident particle at the origin, the strict
decrease from squared distance 1 to 2, the bound at squared distance 4,
and the asymptote at epsilon 1/100. -/
theorem illumination_spec_witness :
    intensity (distSq ((0 : ℚ), 0, 0) (0, 0, 0)) = 0.5 + 2.5 ∧
    intensity 2 < intensity 1 ∧
    (0.5 : ℚ) < intensity 4 ∧
    (∃ D : ℚ, ∀ d2 : ℚ, D ≤ d2 → intensity d2 < 0.5 + 1 / 100) :=
  ⟨illumination_spec.1 (0, 0, 0),
   illumination_spec.2.2.2.1 1 2 (by norm_num) (by norm_num),
   illumination_spec.2.2.2.2.1 4 (by norm_num),
   illumination_spec.2.2.2.2.2.1 (1 / 100) (by norm_num)⟩

/-- C4: for every particleCount, sampleTextPositions returns the untouched
zero-initialized buffer of 3 particleCount zeros whenever the text is
empty or whitespace-only, or no 2d context is available, or the scan
produces no candidate pixels; no such degenerate input throws or produces
anything but zeros. -/
theorem sampleTextPositions_degenerate (text : List Char) (particleCount : ℕ)
    (ctx : Option Bitmap) (re ri : ℕ → ℕ) (jrand : ℕ → ℚ)
    (h : text = [] ∨ (jsTrim text).length = 0 ∨ ctx = none ∨
      ∃ b, ctx = some b ∧ scanAll b 2 = []) :
    sampleTextPositions text particleCount ctx re ri jrand =
      List.replicate (particleCount * 3) 0 ∧
    (sampleTextPositions text particleCount ctx re ri jrand).length =
      3 * particleCount := by
  have hmain : sampleTextPositions text particleCount ctx re ri jrand =
      List.replicate (particleCount * 3) 0 := by
    unfold sampleTextPositions
    rcases h with h | h | h | ⟨b, hb, hpts⟩
    · rw [if_pos (Or.inl h)]
    · rw [if_pos (Or.inr h)]
    · by_cases htext : text = [] ∨ (jsTrim text).length = 0
      · rw [if_pos htext]
      · rw [if_neg htext, h]
    · by_cases htext : text = [] ∨ (jsTrim text).length = 0
      · rw [if_pos htext]
      · rw [if_neg htext, hb]
        simp only [hpts, if_pos]
  refine ⟨hmain, ?_⟩
  rw [hmain, List.length_replicate]
  ring

/-- Witness for C4 with whitespace-only text, particleCount 2 and a
missing 2d context. -/
theorem sampleTextPositions_degenerate_witness :
    sampleTextPositions [' '] 2 none (fun _ => 0) (fun _ => 0) (fun _ => 0) =
      List.replicate (2 * 3) 0 ∧
    (sampleTextPositions [' '] 2 none (fun _ => 0) (fun _ => 0)
      (fun _ => 0)).length = 3 * 2 :=
  sampleTextPositions_degenerate [' '] 2 none (fun _ => 0) (fun _ => 0)
    (fun _ => 0) (Or.inr (Or.inl (by decide)))

/-- C9: on an unpaused tick the core sets targetProgress to 1 whenever
isMorphing is true and the text is nonempty, including whitespace-only
text, for which sampleTextPositions returns the all-zero degenerate
target; only handleMorph in the UI layer, via its trim check, refuses to
start morphing on whitespace-only input. -/
theorem whitespace_text_still_targets_one (ws : List Char) (hne : ws ≠ [])
    (hws : ∀ c ∈ ws, c.isWhitespace) :
    targetProgressOf true ws = 1 ∧
    (∀ (N : ℕ) (ctx : Option Bitmap) (re ri : ℕ → ℕ) (jrand : ℕ → ℚ),
      sampleTextPositions ws N ctx re ri jrand =
        List.replicate (N * 3) 0) ∧
    (∀ s : AppState, s.inputValue = ws → handleMorph s = s) := by
  have htrim : jsTrim ws = [] := jsTrim_eq_nil_of_whitespace hws
  refine ⟨?_, ?_, ?_⟩
  · unfold targetProgressOf
    rw [if_pos ⟨rfl, List.length_pos.mpr hne⟩]
  · intro N ctx re ri jrand
    unfold sampleTextPositions
    rw [if_pos (Or.inr (by rw [htrim]; rfl))]
  · intro s hs
    unfold handleMorph
    rw [if_neg]
    rw [hs, htrim]
    simp

/-- Witness for C9 at the single-space text. -/
theorem whitespace_text_still_targets_one_witness :
    targetProgressOf true [' '] = 1 ∧
    (∀ (N : ℕ) (ctx : Option Bitmap) (re ri : ℕ → ℕ) (jrand : ℕ → ℚ),
      sampleTextPositions [' '] N ctx re ri jrand =
        List.replicate (N * 3) 0) ∧
    (∀ s : AppState, s.inputValue = [' '] → handleMorph s = s) :=
  whitespace_text_still_targets_one [' '] (by decide) (by decide)

/-- The candidate list built by sampleTextPositions in part_001:
`const sortedPoints = [...shuffle(edges), ...shuffle(interior)]`, the
shuffled edge pixels concatenated before the shuffled interior pixels. -/
def candidateList (b : Bitmap) (re ri : ℕ → ℕ) : List GPoint :=
  shuffle re ((scanAll b 2).filter (fun p => p.isEdge)) ++
    shuffle ri ((scanAll b 2).filter (fun p => !p.isEdge))

/-- The round-robin candidate lookup of part_001:
`const pt = sortedPoints[i % sortedPoints.length]`. -/
def assignedCandidate (b : Bitmap) (re ri : ℕ → ℕ) (i : ℕ) : GPoint :=
  (candidateList b re ri).getD (i % (candidateList b re ri).length) default

/-- On the non-degenerate path sampleTextPositions is exactly the flat
triple buffer of world coordinates of the round-robin candidates with
their per-point jitter. -/
theorem sampleTextPositions_nondegenerate (text : List Char) (N : ℕ)
    (b : Bitmap) (re ri : ℕ → ℕ) (jrand : ℕ → ℚ)
    (htext : ¬(text = [] ∨ (jsTrim text).length = 0))
    (hpts : scanAll b 2 ≠ []) :
    sampleTextPositions text N (some b) re ri jrand =
      flat3 N
        (fun i =>
          (((assignedCandidate b re ri i).x : ℚ) - (b.width : ℚ) / 2 +
            (jrand (2 * i) - 0.5) *
              (if (assignedCandidate b re ri i).isEdge then 0.25 else 2.5))
            * (18 / (b.width : ℚ)))
        (fun i =>
          -(((assignedCandidate b re ri i).y : ℚ) - (b.height : ℚ) / 2 +
            (jrand (2 * i + 1) - 0.5) *
              (if (assignedCandidate b re ri i).isEdge then 0.25 else 2.5))
            * (18 / (b.width : ℚ)))
        (fun _ => 0) := by
  have heq : sampleTextPositions text N (some b) re ri jrand =
      if scanAll b 2 = [] then List.replicate (N * 3) 0
      else flat3 N
        (fun i =>
          (((assignedCandidate b re ri i).x : ℚ) - (b.width : ℚ) / 2 +
            (jrand (2 * i) - 0.5) *
              (if (assignedCandidate b re ri i).isEdge then 0.25 else 2.5))
            * (18 / (b.width : ℚ)))
        (fun i =>
          -(((assignedCandidate b re ri i).y : ℚ) - (b.height : ℚ) / 2 +
            (jrand (2 * i + 1) - 0.5) *
              (if (assignedCandidate b re ri i).isEdge then 0.25 else 2.5))
            * (18 / (b.width : ℚ)))
        (fun _ => 0) := by
    unfold sampleTextPositions
    rw [if_neg htext]
    rfl
  rw [heq, if_neg hpts]

/-- C7: for non-degenerate text the candidate list is the shuffled edge
pixels concatenated before the shuffled interior pixels (each shuffle a
permutation of its input, so the list holds exactly the scanned pixels),
and output point i is assigned candidate i mod candidateList.length,
wrapping round-robin when particleCount exceeds the candidate count. -/
theorem sampleTextPositions_roundRobin (text : List Char) (N : ℕ)
    (b : Bitmap) (re ri : ℕ → ℕ) (jrand : ℕ → ℚ)
    (htext : ¬(text = [] ∨ (jsTrim text).length = 0))
    (hpts : scanAll b 2 ≠ []) :
    (shuffle re ((scanAll b 2).filter (fun p => p.isEdge))).Perm
      ((scanAll b 2).filter (fun p => p.isEdge)) ∧
    (shuffle ri ((scanAll b 2).filter (fun p => !p.isEdge))).Perm
      ((scanAll b 2).filter (fun p => !p.isEdge)) ∧
    (candidateList b re ri).length = (scanAll b 2).length ∧
    (∀ i, i < N →
      (sampleTextPositions text N (some b) re ri jrand).getD (3 * i) 0 =
        (((assignedCandidate b re ri i).x : ℚ) - (b.width : ℚ) / 2 +
          (jrand (2 * i) - 0.5) *
            (if (assignedCandidate b re ri i).isEdge then 0.25 else 2.5))
          * (18 / (b.width : ℚ)) ∧
      (sampleTextPositions text N (some b) re ri jrand).getD (3 * i + 1) 0 =
        -(((assignedCandidate b re ri i).y : ℚ) - (b.height : ℚ) / 2 +
          (jrand (2 * i + 1) - 0.5) *
            (if (assignedCandidate b re ri i).isEdge then 0.25 else 2.5))
          * (18 / (b.width : ℚ)) ∧
      (sampleTextPositions text N (some b) re ri jrand).getD (3 * i + 2) 0
        = 0) := by
  refine ⟨shuffle_perm re _, shuffle_perm ri _, ?_, ?_⟩
  · have hlen := List.length_eq_length_filter_add
      (l := scanAll b 2) (fun p : GPoint => p.isEdge)
    unfold candidateList
    rw [List.length_append, (shuffle_perm re _).length_eq,
      (shuffle_perm ri _).length_eq]
    simpa using hlen.symm
  · intro i hi
    rw [sampleTextPositions_nondegenerate text N b re ri jrand htext hpts]
    exact flat3_getD N _ _ _ (0 : ℚ) hi

/-- Witness for C7 on a 6 by 6 fully lit bitmap (one scanned pixel) with
text HI and a single particle. -/
theorem sampleTextPositions_roundRobin_witness :
    (shuffle (fun _ => 0)
        ((scanAll ⟨6, 6, fun _ => 255⟩ 2).filter (fun p => p.isEdge))).Perm
      ((scanAll ⟨6, 6, fun _ => 255⟩ 2).filter (fun p => p.isEdge)) ∧
    (candidateList ⟨6, 6, fun _ => 255⟩ (fun _ => 0) (fun _ => 0)).length =
      (scanAll ⟨6, 6, fun _ => 255⟩ 2).length ∧
    (sampleTextPositions ['H', 'I'] 1 (some ⟨6, 6, fun _ => 255⟩)
      (fun _ => 0) (fun _ => 0) (fun _ => 0)).getD (3 * 0 + 2) 0 = 0 := by
  have hscan : scanAll (⟨6, 6, fun _ => 255⟩ : Bitmap) 2 ≠ [] := by
    simp [scanAll, scanRow, getAlpha, threshold]
  have h := sampleTextPositions_roundRobin ['H', 'I'] 1 ⟨6, 6, fun _ => 255⟩
    (fun _ => 0) (fun _ => 0) (fun _ => 0) (by decide) hscan
  exact ⟨h.1, h.2.2.1, (h.2.2.2 0 (by norm_num)).2.2⟩

/-- The scalar state written by one unpaused frame before the per-particle
loop runs: color lerp, progress relaxation, rotation accumulation and the
rotation applied to the points object; positions are left as they were. -/
noncomputable def frameScalars (s : EngineState) (inp : FrameInput) : EngineState :=
  { colorR := lerp s.colorR inp.targetColorR (inp.delta * 3),
    colorG := lerp s.colorG inp.targetColorG (inp.delta * 3),
    colorB := lerp s.colorB inp.targetColorB (inp.delta * 3),
    morphProgress := tickProgress s.morphProgress
      (targetProgressOf inp.isMorphing inp.text) inp.delta,
    autoRotationY := s.autoRotationY +
      0.1 * (1 - smoothstep (tickProgress s.morphProgress
        (targetProgressOf inp.isMorphing inp.text) inp.delta) * 0.8) * inp.delta,
    rotationX := Real.sin (inp.elapsedTime * 0.5) * 0.1 *
        (1 - smoothstep (tickProgress s.morphProgress
          (targetProgressOf inp.isMorphing inp.text) inp.delta)) -
      inp.pointerY * 0.3 * 0.5,
    rotationY := s.autoRotationY +
        0.1 * (1 - smoothstep (tickProgress s.morphProgress
          (targetProgressOf inp.isMorphing inp.text) inp.delta) * 0.8) * inp.delta +
      inp.pointerX * 0.3 * 0.5,
    positions := s.positions }

/-- The position buffer written by the per-particle loop of one unpaused
frame: the ease-blended sphere and text coordinates plus the per-axis
noise scaled by sin(progress pi) times 2. -/
noncomputable def framePositions (pc : ℕ) (sp tp : ℕ → ℝ)
    (s : EngineState) (inp : FrameInput) : List ℝ :=
  flat3 pc
    (fun i => sp (i * 3) *
        (1 - smoothstep (tickProgress s.morphProgress
          (targetProgressOf inp.isMorphing inp.text) inp.delta)) +
      tp (i * 3) * smoothstep (tickProgress s.morphProgress
          (targetProgressOf inp.isMorphing inp.text) inp.delta) +
      (inp.rand (3 * i) - 0.5) *
        (Real.sin (tickProgress s.morphProgress
          (targetProgressOf inp.isMorphing inp.text) inp.delta * Real.pi) * 2) * 0.2)
    (fun i => sp (i * 3 + 1) *
        (1 - smoothstep (tickProgress s.morphProgress
          (targetProgressOf inp.isMorphing inp.text) inp.delta)) +
      tp (i * 3 + 1) * smoothstep (tickProgress s.morphProgress
          (targetProgressOf inp.isMorphing inp.text) inp.delta) +
      (inp.rand (3 * i + 1) - 0.5) *
        (Real.sin (tickProgress s.morphProgress
          (targetProgressOf inp.isMorphing inp.text) inp.delta * Real.pi) * 2) * 0.2)
    (fun i => sp (i * 3 + 2) *
        (1 - smoothstep (tickProgress s.morphProgress
          (targetProgressOf inp.isMorphing inp.text) inp.delta)) +
      tp (i * 3 + 2) * smoothstep (tickProgress s.morphProgress
          (targetProgressOf inp.isMorphing inp.text) inp.delta) +
      (inp.rand (3 * i + 2) - 0.5) *
        (Real.sin (tickProgress s.morphProgress
          (targetProgressOf inp.isMorphing inp.text) inp.delta * Real.pi) * 2) * 0.5)

theorem frameUpdate_eq_unpaused (pc : ℕ) (sp tp : ℕ → ℝ) (s : EngineState)
    (inp : FrameInput) (hp : inp.isPaused = false) :
    frameUpdate pc sp tp s inp =
      if s.positions.length ≠ pc * 3 then frameScalars s inp
      else { frameScalars s inp with
             positions := framePositions pc sp tp s inp } := by
  unfold frameUpdate
  rw [hp]
  rfl

/-- C5 counterexample: with a mismatched (empty) position buffer,
particleCount 1, text H, isMorphing true and delta 1/10, the frame is not
a no-op: the safety check at line 122 sits after the progress, rotation
and color mutations, so morphProgress still advances from 0 to 1/4. -/
theorem frame_mismatch_not_noop :
    (⟨0, 0, 0, 0, 0, 0, 0, ([] : List ℝ)⟩ : EngineState).positions.length ≠
      1 * 3 ∧
    (frameUpdate 1 (fun _ => 0) (fun _ => 0) ⟨0, 0, 0, 0, 0, 0, 0, []⟩
        ⟨1 / 10, 0, 0, 0, true, ['H'], false, 0, 0, 0, fun _ => 0⟩).morphProgress
      = 1 / 4 ∧
    ((1 : ℝ) / 4 ≠
      (⟨0, 0, 0, 0, 0, 0, 0, ([] : List ℝ)⟩ : EngineState).morphProgress) := by
  refine ⟨by norm_num, ?_, by norm_num⟩
  rw [frameUpdate_eq_unpaused 1 (fun _ => 0) (fun _ => 0)
    ⟨0, 0, 0, 0, 0, 0, 0, []⟩
    ⟨1 / 10, 0, 0, 0, true, ['H'], false, 0, 0, 0, fun _ => 0⟩ rfl,
    if_pos (by norm_num)]
  show tickProgress 0 (targetProgressOf true ['H']) (1 / 10) = 1 / 4
  have htgt : targetProgressOf true ['H'] = 1 := by
    unfold targetProgressOf
    norm_num
  rw [htgt, tickProgress_eq]
  rw [if_pos (by norm_num)]
  rw [show min ((1 : ℝ) / 10 * MORPH_SPEED) 1 = 1 / 4 by
    norm_num [MORPH_SPEED]]
  norm_num

/-- C5 amended: when the position buffer length mismatches
3 particleCount on an unpaused frame, the per-particle position loop is
skipped in full (the buffer is untouched, never partially written and
never indexed), but the frame is not a complete no-op: the morph
progress, accumulated rotation and display color updates have already
been applied before the check. -/
theorem frame_mismatch_skips_positions_only (pc : ℕ) (sp tp : ℕ → ℝ)
    (s : EngineState) (inp : FrameInput) (hp : inp.isPaused = false)
    (hm : s.positions.length ≠ pc * 3) :
    (frameUpdate pc sp tp s inp).positions = s.positions ∧
    (frameUpdate pc sp tp s inp).morphProgress = tickProgress s.morphProgress
      (targetProgressOf inp.isMorphing inp.text) inp.delta ∧
    (frameUpdate pc sp tp s inp).colorR =
      lerp s.colorR inp.targetColorR (inp.delta * 3) ∧
    (frameUpdate pc sp tp s inp).autoRotationY = s.autoRotationY +
      0.1 * (1 - smoothstep (tickProgress s.morphProgress
        (targetProgressOf inp.isMorphing inp.text) inp.delta) * 0.8) *
        inp.delta := by
  rw [frameUpdate_eq_unpaused pc sp tp s inp hp, if_pos hm]
  exact ⟨rfl, rfl, rfl, rfl⟩

/-- Witness for the amended C5 at the concrete mismatched state of the
counterexample. -/
theorem frame_mismatch_skips_positions_only_witness :
    (frameUpdate 1 (fun _ => 0) (fun _ => 0) ⟨0, 0, 0, 0, 0, 0, 0, []⟩
        ⟨1 / 10, 0, 0, 0, true, ['H'], false, 0, 0, 0, fun _ => 0⟩).positions
      = (⟨0, 0, 0, 0, 0, 0, 0, ([] : List ℝ)⟩ : EngineState).positions ∧
    (frameUpdate 1 (fun _ => 0) (fun _ => 0) ⟨0, 0, 0, 0, 0, 0, 0, []⟩
        ⟨1 / 10, 0, 0, 0, true, ['H'], false, 0, 0, 0, fun _ => 0⟩).morphProgress
      = tickProgress
          (⟨0, 0, 0, 0, 0, 0, 0, ([] : List ℝ)⟩ : EngineState).morphProgress
          (targetProgressOf true ['H']) (1 / 10) ∧
    (frameUpdate 1 (fun _ => 0) (fun _ => 0) ⟨0, 0, 0, 0, 0, 0, 0, []⟩
        ⟨1 / 10, 0, 0, 0, true, ['H'], false, 0, 0, 0, fun _ => 0⟩).colorR
      = lerp 0 0 (1 / 10 * 3) ∧
    (frameUpdate 1 (fun _ => 0) (fun _ => 0) ⟨0, 0, 0, 0, 0, 0, 0, []⟩
        ⟨1 / 10, 0, 0, 0, true, ['H'], false, 0, 0, 0, fun _ => 0⟩).autoRotationY
      = 0 + 0.1 * (1 - smoothstep (tickProgress 0
          (targetProgressOf true ['H']) (1 / 10)) * 0.8) * (1 / 10) :=
  frame_mismatch_skips_positions_only 1 (fun _ => 0) (fun _ => 0)
    ⟨0, 0, 0, 0, 0, 0, 0, []⟩
    ⟨1 / 10, 0, 0, 0, true, ['H'], false, 0, 0, 0, fun _ => 0⟩
    rfl (by norm_num)

theorem frameUpdate_positions_eq (pc : ℕ) (sp tp : ℕ → ℝ) (s : EngineState)
    (inp : FrameInput) (hp : inp.isPaused = false)
    (hm : s.positions.length = pc * 3) :
    (frameUpdate pc sp tp s inp).positions = framePositions pc sp tp s inp := by
  rw [frameUpdate_eq_unpaused pc sp tp s inp hp, if_neg (not_not_intro hm)]

theorem blend_noise_bound (a b e r sv c : ℝ) (hr0 : 0 ≤ r) (hr1 : r < 1)
    (hs : 0 ≤ sv) (hc : 0 ≤ c) :
    |a * (1 - e) + b * e + (r - 0.5) * (sv * 2) * c -
      (a * (1 - e) + b * e)| ≤ sv * c := by
  have hcanc : a * (1 - e) + b * e + (r - 0.5) * (sv * 2) * c -
      (a * (1 - e) + b * e) = (r - 0.5) * (sv * 2) * c := by ring
  rw [hcanc, abs_mul, abs_mul]
  have hle : |r - 0.5| ≤ 0.5 := abs_le.mpr ⟨by linarith, by linarith⟩
  rw [abs_of_nonneg (by linarith : (0 : ℝ) ≤ sv * 2), abs_of_nonneg hc]
  have h1 : |r - 0.5| * (sv * 2) ≤ 0.5 * (sv * 2) :=
    mul_le_mul_of_nonneg_right hle (by linarith)
  have h2 : |r - 0.5| * (sv * 2) * c ≤ 0.5 * (sv * 2) * c :=
    mul_le_mul_of_nonneg_right h1 hc
  have h3 : 0.5 * (sv * 2) * c = sv * c := by ring
  linarith

theorem blend_noise_zero (a b e r c T : ℝ) (hT : T = 0 ∨ T = 1) :
    a * (1 - e) + b * e + (r - 0.5) * (Real.sin (T * Real.pi) * 2) * c =
      a * (1 - e) + b * e := by
  have hs : Real.sin (T * Real.pi) = 0 := by
    rcases hT with rfl | rfl
    · simp
    · simp [Real.sin_pi]
  rw [hs]
  ring

/-- C10: on every unpaused frame with matching buffers and for every
particle, each displayed coordinate deviates from the exact linear blend
sphere times (1 - ease) plus text times ease by the bounded noise term:
at most sin(progress pi) times 0.2 on the x and y axes and at most
sin(progress pi) times 0.5 on z; those bounds are at most 0.2 and 0.5,
and the deviation is exactly 0 when progress is exactly 0 or exactly 1. -/
theorem frame_noise_bounded (pc : ℕ) (sp tp : ℕ → ℝ) (s : EngineState)
    (inp : FrameInput) (hp : inp.isPaused = false)
    (hm : s.positions.length = pc * 3) (h0 : 0 ≤ s.morphProgress)
    (h1 : s.morphProgress ≤ 1) (hd : 0 ≤ inp.delta)
    (hr : ∀ n, 0 ≤ inp.rand n ∧ inp.rand n < 1) :
    ∀ i, i < pc →
      |(frameUpdate pc sp tp s inp).positions.getD (3 * i) 0 -
        (sp (i * 3) * (1 - smoothstep (tickProgress s.morphProgress
            (targetProgressOf inp.isMorphing inp.text) inp.delta)) +
          tp (i * 3) * smoothstep (tickProgress s.morphProgress
            (targetProgressOf inp.isMorphing inp.text) inp.delta))| ≤
        Real.sin (tickProgress s.morphProgress
          (targetProgressOf inp.isMorphing inp.text) inp.delta * Real.pi) * 0.2 ∧
      |(frameUpdate pc sp tp s inp).positions.getD (3 * i + 1) 0 -
        (sp (i * 3 + 1) * (1 - smoothstep (tickProgress s.morphProgress
            (targetProgressOf inp.isMorphing inp.text) inp.delta)) +
          tp (i * 3 + 1) * smoothstep (tickProgress s.morphProgress
            (targetProgressOf inp.isMorphing inp.text) inp.delta))| ≤
        Real.sin (tickProgress s.morphProgress
          (targetProgressOf inp.isMorphing inp.text) inp.delta * Real.pi) * 0.2 ∧
      |(frameUpdate pc sp tp s inp).positions.getD (3 * i + 2) 0 -
        (sp (i * 3 + 2) * (1 - smoothstep (tickProgress s.morphProgress
            (targetProgressOf inp.isMorphing inp.text) inp.delta)) +
          tp (i * 3 + 2) * smoothstep (tickProgress s.morphProgress
            (targetProgressOf inp.isMorphing inp.text) inp.delta))| ≤
        Real.sin (tickProgress s.morphProgress
          (targetProgressOf inp.isMorphing inp.text) inp.delta * Real.pi) * 0.5 ∧
      Real.sin (tickProgress s.morphProgress
        (targetProgressOf inp.isMorphing inp.text) inp.delta * Real.pi) * 0.2
        ≤ 0.2 ∧
      Real.sin (tickProgress s.morphProgress
        (targetProgressOf inp.isMorphing inp.text) inp.delta * Real.pi) * 0.5
        ≤ 0.5 ∧
      ((tickProgress s.morphProgress
          (targetProgressOf inp.isMorphing inp.text) inp.delta = 0 ∨
        tickProgress s.morphProgress
          (targetProgressOf inp.isMorphing inp.text) inp.delta = 1) →
        (frameUpdate pc sp tp s inp).positions.getD (3 * i) 0 =
          sp (i * 3) * (1 - smoothstep (tickProgress s.morphProgress
            (targetProgressOf inp.isMorphing inp.text) inp.delta)) +
          tp (i * 3) * smoothstep (tickProgress s.morphProgress
            (targetProgressOf inp.isMorphing inp.text) inp.delta)) := by
  intro i hi
  have htgt : targetProgressOf inp.isMorphing inp.text = 0 ∨
      targetProgressOf inp.isMorphing inp.text = 1 := by
    unfold targetProgressOf
    split_ifs
    · right; rfl
    · left; rfl
  obtain ⟨hT0, hT1⟩ := tickProgress_bounds s.morphProgress
    (targetProgressOf inp.isMorphing inp.text) inp.delta h0 h1 htgt hd
  have hsin0 : 0 ≤ Real.sin (tickProgress s.morphProgress
      (targetProgressOf inp.isMorphing inp.text) inp.delta * Real.pi) :=
    Real.sin_nonneg_of_nonneg_of_le_pi
      (mul_nonneg hT0 Real.pi_pos.le) (by nlinarith [Real.pi_pos])
  have hsin1 : Real.sin (tickProgress s.morphProgress
      (targetProgressOf inp.isMorphing inp.text) inp.delta * Real.pi) ≤ 1 :=
    Real.sin_le_one _
  have hPos := frameUpdate_positions_eq pc sp tp s inp hp hm
  rw [hPos]
  unfold framePositions
  rw [(flat3_getD pc _ _ _ (0 : ℝ) hi).1, (flat3_getD pc _ _ _ (0 : ℝ) hi).2.1,
    (flat3_getD pc _ _ _ (0 : ℝ) hi).2.2]
  refine ⟨?_, ?_, ?_, ?_, ?_, ?_⟩
  · exact blend_noise_bound _ _ _ _ _ _ (hr (3 * i)).1 (hr (3 * i)).2
      hsin0 (by norm_num)
  · exact blend_noise_bound _ _ _ _ _ _ (hr (3 * i + 1)).1 (hr (3 * i + 1)).2
      hsin0 (by norm_num)
  · exact blend_noise_bound _ _ _ _ _ _ (hr (3 * i + 2)).1 (hr (3 * i + 2)).2
      hsin0 (by norm_num)
  · nlinarith
  · nlinarith
  · intro hT
    exact blend_noise_zero _ _ _ _ _ _ hT

/-- Witness for C10 with one particle, zero source buffers, a length 3
display buffer and the constant random stream 1/2. -/
theorem frame_noise_bounded_witness :
    |(frameUpdate 1 (fun _ => 0) (fun _ => 0) ⟨0, 0, 0, 0, 0, 0, 0, [0, 0, 0]⟩
        ⟨1 / 10, 0, 0, 0, true, ['H'], false, 0, 0, 0,
          fun _ => 1 / 2⟩).positions.getD (3 * 0) 0 -
      ((0 : ℝ) * (1 - smoothstep (tickProgress 0
          (targetProgressOf true ['H']) (1 / 10))) +
        0 * smoothstep (tickProgress 0 (targetProgressOf true ['H'])
          (1 / 10)))| ≤
      Real.sin (tickProgress 0 (targetProgressOf true ['H']) (1 / 10) *
        Real.pi) * 0.2 ∧
    Real.sin (tickProgress 0 (targetProgressOf true ['H']) (1 / 10) *
      Real.pi) * 0.2 ≤ 0.2 := by
  have h := frame_noise_bounded 1 (fun _ => 0) (fun _ => 0)
    ⟨0, 0, 0, 0, 0, 0, 0, [0, 0, 0]⟩
    ⟨1 / 10, 0, 0, 0, true, ['H'], false, 0, 0, 0, fun _ => 1 / 2⟩
    rfl (by simp) le_rfl zero_le_one (by norm_num)
    (fun n => ⟨by norm_num, by norm_num⟩) 0 (by norm_num)
  exact ⟨h.1, h.2.2.2.1⟩

end ParticleToText
